import Mathlib

/-!
Verification of the schedule-bot core against its specification.

Python strings are modelled as `List Char` (a Python `str` is a sequence of
Unicode code points).  Calendar dates are modelled both as rata-die day
numbers (`Int`, for the gap-skipping algorithm, which only compares and
subtracts dates) and as civil `(year, month, day)` triples (for
`get_date_range`, which inspects the day of year).
-/

set_option maxRecDepth 10000

abbrev Str := List Char

/-- Model of Python `str.lower` restricted to the alphabets the program
handles: ASCII letters and the Cyrillic letters appearing in Ukrainian
discipline names (А–Я, Ё, Є, І, Ї, Ґ).  Other characters are unchanged. -/
def pyLower (c : Char) : Char :=
  if 'A' ≤ c ∧ c ≤ 'Z' then Char.ofNat (c.toNat + 32)
  else if 0x410 ≤ c.toNat ∧ c.toNat ≤ 0x42F then Char.ofNat (c.toNat + 32)
  else if c.toNat = 0x401 then Char.ofNat 0x451
  else if c.toNat = 0x404 then Char.ofNat 0x454
  else if c.toNat = 0x406 then Char.ofNat 0x456
  else if c.toNat = 0x407 then Char.ofNat 0x457
  else if c.toNat = 0x490 then Char.ofNat 0x491
  else c

/-- Model of Python's `pat in s` substring test on strings. -/
def containsSub (pat : Str) : Str → Bool
  | [] => pat.isEmpty
  | c :: rest => pat.isPrefixOf (c :: rest) || containsSub pat rest

/-- The configured case-insensitive "hidden" marker substring
(`'приховано'` in `_is_day_empty`, src/bot/pages.py). -/
def hiddenMarker : Str := "приховано".toList

/-- One schedule period (the fields used by the pages module). -/
structure Period where
  disciplineShortName : Str
  typeStr : Str
  timeStart : Str
  timeEnd : Str
  classroom : Str
  teachersNameFull : Str
  extraText : Bool
deriving DecidableEq

/-- One lesson: a number and its periods. -/
structure Lesson where
  number : Nat
  periods : List Period
deriving DecidableEq

/-- One schedule day; `date` is the rata-die day number of the ISO date. -/
structure ScheduleDay where
  date : Int
  lessons : List Lesson
deriving DecidableEq

/-- Test `'приховано' in period['disciplineShortName'].lower()` for one period. -/
def is_period_hidden (p : Period) : Bool :=
  containsSub hiddenMarker (p.disciplineShortName.map pyLower)

/-- Embedding of `_is_day_empty` (src/bot/pages.py): returns `true` when the
day has no lessons, or when the scan over all periods finds one whose
discipline short name contains the hidden marker (the function returns
`True` at the first such period). -/
def is_day_empty (day : ScheduleDay) : Bool :=
  if day.lessons.isEmpty then true
  else day.lessons.any (fun l => l.periods.any (fun p => is_period_hidden p))

/-- The emptiness rule as the specification words it: empty iff there are no
lessons or **every** period's discipline name contains the hidden marker. -/
def is_day_empty_spec (day : ScheduleDay) : Bool :=
  day.lessons.isEmpty ||
    day.lessons.all (fun l => l.periods.all (fun p => is_period_hidden p))

/-- A period whose discipline name contains the hidden marker (with a capital
letter, exercising case-insensitivity). -/
def hiddenPeriod : Period :=
  { disciplineShortName := "Приховано".toList
    typeStr := "Лк".toList
    timeStart := "08:20".toList
    timeEnd := "09:40".toList
    classroom := "1".toList
    teachersNameFull := "Іваненко Іван Іванович".toList
    extraText := false }

/-- A period whose discipline name does not contain the hidden marker. -/
def visiblePeriod : Period :=
  { disciplineShortName := "Математика".toList
    typeStr := "Лк".toList
    timeStart := "10:05".toList
    timeEnd := "11:25".toList
    classroom := "2".toList
    teachersNameFull := "Петренко Петро Петрович".toList
    extraText := false }

/-- A day with one hidden period and one visible period. -/
def mixedDay : ScheduleDay :=
  { date := 738000, lessons := [{ number := 1, periods := [hiddenPeriod, visiblePeriod] }] }

/-- Scan loop of `_count_no_lesson_days` (src/bot/pages.py): walk the given
day list and return the distance to the first day strictly beyond `date` in
the given direction that is not empty, `none` when the scan finds no such
day (the Python `for … else` returns `None`). -/
def count_no_lesson_days_go (directionRight : Bool) (date : Int) :
    List ScheduleDay → Option Int
  | [] => none
  | day :: rest =>
    if directionRight then
      if date < day.date ∧ is_day_empty day = false then some (day.date - date)
      else count_no_lesson_days_go directionRight date rest
    else
      if day.date < date ∧ is_day_empty day = false then some (date - day.date)
      else count_no_lesson_days_go directionRight date rest

/-- Embedding of `_count_no_lesson_days` (src/bot/pages.py): the schedule is
walked in order for the right direction and reversed for the left one. -/
def count_no_lesson_days (schedule : List ScheduleDay) (date : Int)
    (directionRight : Bool) : Option Int :=
  count_no_lesson_days_go directionRight date
    (if directionRight then schedule else schedule.reverse)

/-- The navigation data computed by `empty_schedule` (src/bot/pages.py):
skip counts after the caller's boundary substitution, day/week navigation
targets, whether the empty run was merged into one page, and the displayed
inclusive date range of the merged page. -/
structure EmptyScheduleNav where
  skip_left : Int
  skip_right : Int
  prev_day_date : Int
  next_day_date : Int
  prev_week_date : Int
  next_week_date : Int
  merged : Bool
  dateStart : Option Int
  dateEnd : Option Int
deriving DecidableEq

/-- The part of `empty_schedule` after the skip counts are fixed: navigation
targets, the `skip_left > 1 or skip_right > 1` merge branch with its widened
week targets, and the displayed range bounds. -/
def empty_schedule_nav_core (date skipLeft skipRight : Int) : EmptyScheduleNav :=
  let next_day_date := date + skipRight
  let prev_day_date := date - skipLeft
  let next_week_date := date + 7
  let prev_week_date := date - 7
  if 1 < skipLeft ∨ 1 < skipRight then
    { skip_left := skipLeft
      skip_right := skipRight
      prev_day_date := prev_day_date
      next_day_date := next_day_date
      prev_week_date := min prev_week_date prev_day_date
      next_week_date := max next_week_date next_day_date
      merged := true
      dateStart := some (prev_day_date + 1)
      dateEnd := some (next_day_date - 1) }
  else
    { skip_left := skipLeft
      skip_right := skipRight
      prev_day_date := prev_day_date
      next_day_date := next_day_date
      prev_week_date := prev_week_date
      next_week_date := next_week_date
      merged := false
      dateStart := none
      dateEnd := none }

/-- Embedding of the navigation computation of `empty_schedule`
(src/bot/pages.py): skip counts come from `_count_no_lesson_days`, with the
window boundary date offset by one day substituted when a direction has no
non-empty day.  Returns `none` on an empty fetch window, where the code
would fail indexing `schedule[-1]`. -/
def empty_schedule_nav (schedule : List ScheduleDay) (date : Int) :
    Option EmptyScheduleNav :=
  match schedule with
  | [] => none
  | first :: rest =>
    let last := List.getLast (first :: rest) (List.cons_ne_nil first rest)
    let skipRight :=
      match count_no_lesson_days (first :: rest) date true with
      | some k => k
      | none => last.date - date + 1
    let skipLeft :=
      match count_no_lesson_days (first :: rest) date false with
      | some k => k
      | none => date - first.date + 1
    some (empty_schedule_nav_core date skipLeft skipRight)

lemma empty_schedule_nav_core_skip_left (date l r : Int) :
    (empty_schedule_nav_core date l r).skip_left = l := by
  unfold empty_schedule_nav_core
  split <;> rfl

lemma empty_schedule_nav_core_skip_right (date l r : Int) :
    (empty_schedule_nav_core date l r).skip_right = r := by
  unfold empty_schedule_nav_core
  split <;> rfl

lemma empty_schedule_nav_eq_core {schedule : List ScheduleDay} {date : Int}
    {nav : EmptyScheduleNav} (h : empty_schedule_nav schedule date = some nav) :
    ∃ l r, nav = empty_schedule_nav_core date l r := by
  cases schedule with
  | nil => simp [empty_schedule_nav] at h
  | cons f rest =>
    simp only [empty_schedule_nav, Option.some_inj] at h
    exact ⟨_, _, h.symm⟩

/-- A lesson holding a single visible (non-hidden) period. -/
def visibleLesson : Lesson := { number := 1, periods := [visiblePeriod] }

/-- A small date-sorted fetch window around reference day 11: days 10, 11
and 14 are empty, day 13 has a visible lesson. -/
def wSched : List ScheduleDay :=
  [ { date := 10, lessons := [] },
    { date := 11, lessons := [] },
    { date := 13, lessons := [visibleLesson] },
    { date := 14, lessons := [] } ]

/-- The navigation data `empty_schedule` computes on `wSched` at day 11. -/
def wNav : EmptyScheduleNav :=
  { skip_left := 2
    skip_right := 2
    prev_day_date := 9
    next_day_date := 13
    prev_week_date := 4
    next_week_date := 18
    merged := true
    dateStart := some 10
    dateEnd := some 12 }

/-- C2: when `skip_left > 1` or `skip_right > 1`, the empty-schedule page
shows the inclusive range `[reference − skipLeft + 1, reference +
skipRight − 1]` and widens the week targets to `max(reference+7,
reference+skipRight)` and `min(reference−7, reference−skipLeft)`, and
neither week target lies inside the merged range. -/
theorem c2_merged_empty_range (schedule : List ScheduleDay) (date : Int)
    (nav : EmptyScheduleNav)
    (h : empty_schedule_nav schedule date = some nav)
    (hm : 1 < nav.skip_left ∨ 1 < nav.skip_right) :
    nav.dateStart = some (date - nav.skip_left + 1) ∧
    nav.dateEnd = some (date + nav.skip_right - 1) ∧
    nav.next_week_date = max (date + 7) (date + nav.skip_right) ∧
    nav.prev_week_date = min (date - 7) (date - nav.skip_left) ∧
    ¬(date - nav.skip_left + 1 ≤ nav.next_week_date ∧
        nav.next_week_date ≤ date + nav.skip_right - 1) ∧
    ¬(date - nav.skip_left + 1 ≤ nav.prev_week_date ∧
        nav.prev_week_date ≤ date + nav.skip_right - 1) := by
  obtain ⟨l, r, rfl⟩ := empty_schedule_nav_eq_core h
  rw [empty_schedule_nav_core_skip_left, empty_schedule_nav_core_skip_right] at hm ⊢
  simp only [empty_schedule_nav_core, if_pos hm]
  refine ⟨trivial, trivial, trivial, trivial, by omega, by omega⟩

/-- Witness for C2 on the concrete window `wSched` at reference day 11. -/
theorem c2_merged_empty_range_witness :
    empty_schedule_nav wSched 11 = some wNav ∧
    (1 < wNav.skip_left ∨ 1 < wNav.skip_right) ∧
    (wNav.dateStart = some (11 - wNav.skip_left + 1) ∧
      wNav.dateEnd = some (11 + wNav.skip_right - 1) ∧
      wNav.next_week_date = max (11 + 7) (11 + wNav.skip_right) ∧
      wNav.prev_week_date = min (11 - 7) (11 - wNav.skip_left) ∧
      ¬(11 - wNav.skip_left + 1 ≤ wNav.next_week_date ∧
          wNav.next_week_date ≤ 11 + wNav.skip_right - 1) ∧
      ¬(11 - wNav.skip_left + 1 ≤ wNav.prev_week_date ∧
          wNav.prev_week_date ≤ 11 + wNav.skip_right - 1)) :=
  ⟨by decide, by decide,
    c2_merged_empty_range wSched 11 wNav (by decide) (by decide)⟩

lemma go_right_some {sched : List ScheduleDay} {date k : Int}
    (hsort : sched.Pairwise (fun a b => a.date < b.date))
    (h : count_no_lesson_days_go true date sched = some k) :
    0 < k ∧ (∃ d ∈ sched, d.date = date + k ∧ is_day_empty d = false) ∧
    ∀ d ∈ sched, date < d.date → is_day_empty d = false → date + k ≤ d.date := by
  induction sched with
  | nil => simp [count_no_lesson_days_go] at h
  | cons day rest ih =>
    rw [count_no_lesson_days_go, if_pos rfl] at h
    by_cases hc : date < day.date ∧ is_day_empty day = false
    · rw [if_pos hc] at h
      obtain ⟨h1, h2⟩ := hc
      have hk : k = day.date - date := (Option.some.inj h).symm
      refine ⟨by omega, ⟨day, List.mem_cons_self day rest, by omega, h2⟩, ?_⟩
      intro d hd hlt hne
      rcases List.mem_cons.mp hd with rfl | hd'
      · omega
      · have := (List.pairwise_cons.mp hsort).1 d hd'
        omega
    · rw [if_neg hc] at h
      obtain ⟨hk, ⟨d0, hd0, hdate, hne⟩, hmin⟩ := ih (List.pairwise_cons.mp hsort).2 h
      refine ⟨hk, ⟨d0, List.mem_cons_of_mem _ hd0, hdate, hne⟩, ?_⟩
      intro d hd hlt hne'
      rcases List.mem_cons.mp hd with rfl | hd'
      · exact absurd ⟨hlt, hne'⟩ hc
      · exact hmin d hd' hlt hne'

lemma go_right_none {sched : List ScheduleDay} {date : Int}
    (h : count_no_lesson_days_go true date sched = none) :
    ∀ d ∈ sched, date < d.date → is_day_empty d = true := by
  induction sched with
  | nil => intro d hd; simp at hd
  | cons day rest ih =>
    rw [count_no_lesson_days_go, if_pos rfl] at h
    by_cases hc : date < day.date ∧ is_day_empty day = false
    · rw [if_pos hc] at h; exact absurd h (by simp)
    · rw [if_neg hc] at h
      intro d hd hlt
      rcases List.mem_cons.mp hd with rfl | hd'
      · rcases Bool.eq_false_or_eq_true (is_day_empty d) with ht | hf
        · exact ht
        · exact absurd ⟨hlt, hf⟩ hc
      · exact ih h d hd' hlt

lemma go_left_some {sched : List ScheduleDay} {date k : Int}
    (hsort : sched.Pairwise (fun a b => b.date < a.date))
    (h : count_no_lesson_days_go false date sched = some k) :
    0 < k ∧ (∃ d ∈ sched, d.date = date - k ∧ is_day_empty d = false) ∧
    ∀ d ∈ sched, d.date < date → is_day_empty d = false → d.date ≤ date - k := by
  induction sched with
  | nil => simp [count_no_lesson_days_go] at h
  | cons day rest ih =>
    rw [count_no_lesson_days_go, if_neg (by decide)] at h
    by_cases hc : day.date < date ∧ is_day_empty day = false
    · rw [if_pos hc] at h
      obtain ⟨h1, h2⟩ := hc
      have hk : k = date - day.date := (Option.some.inj h).symm
      refine ⟨by omega, ⟨day, List.mem_cons_self day rest, by omega, h2⟩, ?_⟩
      intro d hd hlt hne
      rcases List.mem_cons.mp hd with rfl | hd'
      · omega
      · have := (List.pairwise_cons.mp hsort).1 d hd'
        omega
    · rw [if_neg hc] at h
      obtain ⟨hk, ⟨d0, hd0, hdate, hne⟩, hmin⟩ := ih (List.pairwise_cons.mp hsort).2 h
      refine ⟨hk, ⟨d0, List.mem_cons_of_mem _ hd0, hdate, hne⟩, ?_⟩
      intro d hd hlt hne'
      rcases List.mem_cons.mp hd with rfl | hd'
      · exact absurd ⟨hlt, hne'⟩ hc
      · exact hmin d hd' hlt hne'

lemma go_left_none {sched : List ScheduleDay} {date : Int}
    (h : count_no_lesson_days_go false date sched = none) :
    ∀ d ∈ sched, d.date < date → is_day_empty d = true := by
  induction sched with
  | nil => intro d hd; simp at hd
  | cons day rest ih =>
    rw [count_no_lesson_days_go, if_neg (by decide)] at h
    by_cases hc : day.date < date ∧ is_day_empty day = false
    · rw [if_pos hc] at h; exact absurd h (by simp)
    · rw [if_neg hc] at h
      intro d hd hlt
      rcases List.mem_cons.mp hd with rfl | hd'
      · rcases Bool.eq_false_or_eq_true (is_day_empty d) with ht | hf
        · exact ht
        · exact absurd ⟨hlt, hf⟩ hc
      · exact ih h d hd' hlt

lemma empty_schedule_nav_skips {f : ScheduleDay} {rest : List ScheduleDay}
    {date : Int} {nav : EmptyScheduleNav}
    (h : empty_schedule_nav (f :: rest) date = some nav) :
    (nav.skip_right = match count_no_lesson_days (f :: rest) date true with
      | some k => k
      | none =>
          (List.getLast (f :: rest) (List.cons_ne_nil f rest)).date - date + 1) ∧
    (nav.skip_left = match count_no_lesson_days (f :: rest) date false with
      | some k => k
      | none => date - f.date + 1) := by
  simp only [empty_schedule_nav, Option.some_inj] at h
  subst h
  rw [empty_schedule_nav_core_skip_right, empty_schedule_nav_core_skip_left]
  exact ⟨rfl, rfl⟩

/-- What claim C3 asserts of the two skip counts that `empty_schedule` ends
up using: in each direction, if some day strictly beyond the reference is
non-empty, the skip count is the distance to the nearest such day; if every
day strictly beyond the reference is empty, the skip count is the distance
to that window boundary plus one. -/
def skip_counts_correct (schedule : List ScheduleDay) (date : Int)
    (nav : EmptyScheduleNav) : Prop :=
  ((∃ d ∈ schedule, date < d.date ∧ is_day_empty d = false) →
    0 < nav.skip_right ∧
    (∃ d ∈ schedule, d.date = date + nav.skip_right ∧ is_day_empty d = false) ∧
    ∀ d ∈ schedule, date < d.date → is_day_empty d = false →
      date + nav.skip_right ≤ d.date) ∧
  ((∀ d ∈ schedule, date < d.date → is_day_empty d = true) →
    ∀ lastDay, schedule.getLast? = some lastDay →
      nav.skip_right = lastDay.date - date + 1) ∧
  ((∃ d ∈ schedule, d.date < date ∧ is_day_empty d = false) →
    0 < nav.skip_left ∧
    (∃ d ∈ schedule, d.date = date - nav.skip_left ∧ is_day_empty d = false) ∧
    ∀ d ∈ schedule, d.date < date → is_day_empty d = false →
      d.date ≤ date - nav.skip_left) ∧
  ((∀ d ∈ schedule, d.date < date → is_day_empty d = true) →
    ∀ firstDay, schedule.head? = some firstDay →
      nav.skip_left = date - firstDay.date + 1)

/-- C3: for a date-sorted window, the skip counts used by `empty_schedule`
equal the day distance to the nearest non-empty day strictly beyond the
reference in each direction, and fall back to the distance to the window
boundary plus one when the direction holds no non-empty day. -/
theorem c3_skip_counts (schedule : List ScheduleDay) (date : Int)
    (nav : EmptyScheduleNav)
    (hsort : schedule.Pairwise (fun a b => a.date < b.date))
    (h : empty_schedule_nav schedule date = some nav) :
    skip_counts_correct schedule date nav := by
  cases schedule with
  | nil => simp [empty_schedule_nav] at h
  | cons f rest =>
    obtain ⟨hR, hL⟩ := empty_schedule_nav_skips h
    have hsortRev : (f :: rest).reverse.Pairwise (fun a b => b.date < a.date) := by
      rw [List.pairwise_reverse]; exact hsort
    refine ⟨?_, ?_, ?_, ?_⟩
    · rintro ⟨d, hd, hlt, hne⟩
      cases hcr : count_no_lesson_days (f :: rest) date true with
      | none =>
        have := go_right_none (by simpa [count_no_lesson_days] using hcr) d hd hlt
        rw [hne] at this
        exact absurd this (by simp)
      | some k =>
        have hk := go_right_some hsort (by simpa [count_no_lesson_days] using hcr)
        rw [hR, hcr]
        exact hk
    · intro hall lastDay hlast
      cases hcr : count_no_lesson_days (f :: rest) date true with
      | some k =>
        obtain ⟨hkpos, ⟨d, hd, hdate, hne⟩, _⟩ :=
          go_right_some hsort (by simpa [count_no_lesson_days] using hcr)
        have := hall d hd (by omega)
        rw [hne] at this
        exact absurd this (by simp)
      | none =>
        rw [hR, hcr]
        have hg : (f :: rest).getLast? =
            some (List.getLast (f :: rest) (List.cons_ne_nil f rest)) :=
          List.getLast?_eq_getLast _ _
        rw [hlast] at hg
        rw [Option.some_inj.mp hg]
    · rintro ⟨d, hd, hlt, hne⟩
      cases hcl : count_no_lesson_days (f :: rest) date false with
      | none =>
        have hgo : count_no_lesson_days_go false date (f :: rest).reverse = none := by
          simpa [count_no_lesson_days] using hcl
        have := go_left_none hgo d (List.mem_reverse.mpr hd) hlt
        rw [hne] at this
        exact absurd this (by simp)
      | some k =>
        obtain ⟨hkpos, ⟨d0, hd0, hdate, hne0⟩, hmin⟩ :=
          go_left_some hsortRev (by simpa [count_no_lesson_days] using hcl)
        rw [hL, hcl]
        exact ⟨hkpos, ⟨d0, List.mem_reverse.mp hd0, hdate, hne0⟩,
          fun d' hd' hlt' hne' => hmin d' (List.mem_reverse.mpr hd') hlt' hne'⟩
    · intro hall firstDay hfirst
      cases hcl : count_no_lesson_days (f :: rest) date false with
      | some k =>
        obtain ⟨hkpos, ⟨d, hd, hdate, hne⟩, _⟩ :=
          go_left_some hsortRev (by simpa [count_no_lesson_days] using hcl)
        have := hall d (List.mem_reverse.mp hd) (by omega)
        rw [hne] at this
        exact absurd this (by simp)
      | none =>
        rw [hL, hcl]
        simp only [List.head?_cons, Option.some_inj] at hfirst
        rw [hfirst]

/-- Witness for C3 on the concrete sorted window `wSched` at day 11. -/
theorem c3_skip_counts_witness :
    List.Pairwise (fun a b : ScheduleDay => a.date < b.date) wSched ∧
    empty_schedule_nav wSched 11 = some wNav ∧
    skip_counts_correct wSched 11 wNav :=
  ⟨by decide, by decide, c3_skip_counts wSched 11 wNav (by decide) (by decide)⟩

/-- A Python `datetime.date`: a civil calendar date. -/
structure PyDate where
  year : Int
  month : Int
  day : Int
deriving DecidableEq

/-- Rata-die style day count of a civil date (days since 1970-01-01,
Hinnant's `days_from_civil` algorithm), the arithmetic behind Python's
`date` ordering and `timedelta` addition. -/
def daysFromCivil (y m d : Int) : Int :=
  let y' := y - (if m ≤ 2 then 1 else 0)
  let era := Int.fdiv y' 400
  let yoe := y' - era * 400
  let doy := Int.fdiv (153 * (m + (if 2 < m then -3 else 9)) + 2) 5 + d - 1
  let doe := yoe * 365 + Int.fdiv yoe 4 - Int.fdiv yoe 100 + doy
  era * 146097 + doe - 719468

/-- Inverse of `daysFromCivil` (Hinnant's `civil_from_days`). -/
def civilFromDays (z0 : Int) : PyDate :=
  let z := z0 + 719468
  let era := Int.fdiv z 146097
  let doe := z - era * 146097
  let yoe := Int.fdiv (doe - Int.fdiv doe 1460 + Int.fdiv doe 36524 - Int.fdiv doe 146096) 365
  let y := yoe + era * 400
  let doy := doe - (365 * yoe + Int.fdiv yoe 4 - Int.fdiv yoe 100)
  let mp := Int.fdiv (5 * doy + 2) 153
  let d := doy - Int.fdiv (153 * mp + 2) 5 + 1
  let m := mp + (if mp < 10 then 3 else -9)
  { year := y + (if m ≤ 2 then 1 else 0), month := m, day := d }

/-- Embedding of `get_day_of_year` (src/lib/api/utils.py), i.e. Python's
`date.timetuple().tm_yday`. -/
def get_day_of_year (date : PyDate) : Int :=
  daysFromCivil date.year date.month date.day - daysFromCivil date.year 1 1 + 1

/-- Embedding of `get_date_from_day_of_year` (src/lib/api/utils.py):
`date(year, 1, 1) + timedelta(days=day_of_year - 1)`. -/
def get_date_from_day_of_year (year dayOfYear : Int) : PyDate :=
  civilFromDays (daysFromCivil year 1 1 + dayOfYear - 1)

/-- Embedding of `get_date_range` (src/lib/api/utils.py).  Python's `//`
and `%` are floor division and floor modulus, `Int.fdiv`/`Int.fmod`. -/
def get_date_range (date : PyDate) (r : Int) : PyDate × PyDate :=
  let day_of_year := get_day_of_year date
  let from_day := day_of_year - Int.fmod day_of_year r
  let to_day := from_day + r - 1
  let years_diff := Int.fdiv to_day 365
  let to_day2 := Int.fmod to_day 365
  (get_date_from_day_of_year date.year from_day,
    get_date_from_day_of_year (date.year + years_diff) to_day2)

/-- C4 counterexample: on the non-leap-year date 2023-08-21 (day-of-year
233) with range 10, `get_date_range` does **not** return the pair
(Aug 18, Aug 28) required by the claim. -/
theorem c4_get_date_range_not_aug28 :
    get_day_of_year ⟨2023, 8, 21⟩ = 233 ∧
    get_date_range ⟨2023, 8, 21⟩ 10 ≠ (⟨2023, 8, 18⟩, ⟨2023, 8, 28⟩) := by
  decide

/-- C4 (amended): with day-of-year 233 and range 10 the bucket is
`from = 230`, `to = 239`, and since day-of-year 239 of a non-leap year is
August 27, the returned pair is (Aug 18, Aug 27) of the same year. -/
theorem c4_get_date_range_example :
    get_day_of_year ⟨2023, 8, 21⟩ = 233 ∧
    get_date_range ⟨2023, 8, 21⟩ 10 = (⟨2023, 8, 18⟩, ⟨2023, 8, 27⟩) ∧
    get_day_of_year ⟨2023, 8, 18⟩ = 230 ∧
    get_day_of_year ⟨2023, 8, 27⟩ = 239 := by
  decide

/-- Split a string at the first occurrence of a character, `none` when the
character does not occur. -/
def splitFirstChar (sep : Char) : Str → Option (Str × Str)
  | [] => none
  | c :: rest =>
    if c = sep then some ([], rest)
    else
      match splitFirstChar sep rest with
      | none => none
      | some (a, b) => some (c :: a, b)

/-- Model of Python's `s.split(sep)` for a one-character separator: splits
at every occurrence; the empty string yields `[""]`. -/
def splitAllChar (sep : Char) : Str → List Str
  | [] => [[]]
  | c :: rest =>
    if c = sep then [] :: splitAllChar sep rest
    else
      match splitAllChar sep rest with
      | [] => [[c]]
      | h :: t => (c :: h) :: t

/-- One `key=value` chunk of the encoded argument payload. -/
def argChunk (kv : Str × Str) : Str := kv.1 ++ '=' :: kv.2

/-- Join argument chunks with `&`. -/
def joinAmp : List Str → Str
  | [] => []
  | [c] => c
  | c :: c2 :: rest => c ++ '&' :: joinAmp (c2 :: rest)

/-- The callback-action encoding `"<name>#<k1>=<v1>&<k2>=<v2>…"` described
in the spec (§4.1); it matches the inline f-string construction of
`callback_data` throughout src/bot/pages.py, where an action without
arguments carries no `#`. -/
def encode_action (name : Str) (args : List (Str × Str)) : Str :=
  match args with
  | [] => name
  | kv :: rest => name ++ '#' :: joinAmp ((kv :: rest).map argChunk)

/-- Parse one `key=value` chunk: split at the first `=`; a chunk without
`=` becomes a key with empty value. -/
def parse_arg (chunk : Str) : Str × Str :=
  match splitFirstChar '=' chunk with
  | none => (chunk, [])
  | some (k, v) => (k, v)

/-- Modelled from the spec: the decoder `parse_callback_query` lives in
`bot/utils.py`, which is not under src/ (only its callers are).  Per §4.1
it "splits on the first `#`, then on `&` and `=`"; a string without `#` is
an action name with no arguments. -/
def parse_callback_query (s : Str) : Str × List (Str × Str) :=
  match splitFirstChar '#' s with
  | none => (s, [])
  | some (name, rest) => (name, (splitAllChar '&' rest).map parse_arg)

/-- A key or value is free of the reserved characters `#`, `&`, `=`. -/
def reservedFree (s : Str) : Prop := '#' ∉ s ∧ '&' ∉ s ∧ '=' ∉ s

instance (s : Str) : Decidable (reservedFree s) := by
  unfold reservedFree; infer_instance

lemma splitFirstChar_none {sep : Char} {s : Str} (h : sep ∉ s) :
    splitFirstChar sep s = none := by
  induction s with
  | nil => rfl
  | cons c rest ih =>
    rw [splitFirstChar, if_neg (by simp at h; exact Ne.symm h.1),
      ih (by simp at h; exact h.2)]

lemma splitFirstChar_append {sep : Char} {xs ys : Str} (h : sep ∉ xs) :
    splitFirstChar sep (xs ++ sep :: ys) = some (xs, ys) := by
  induction xs with
  | nil => simp [splitFirstChar]
  | cons c rest ih =>
    rw [List.cons_append, splitFirstChar, if_neg (by simp at h; exact Ne.symm h.1),
      ih (by simp at h; exact h.2)]

lemma splitAllChar_no_sep {sep : Char} {s : Str} (h : sep ∉ s) :
    splitAllChar sep s = [s] := by
  induction s with
  | nil => rfl
  | cons c rest ih =>
    rw [splitAllChar, if_neg (by simp at h; exact Ne.symm h.1),
      ih (by simp at h; exact h.2)]

lemma splitAllChar_append {sep : Char} {xs ys : Str} (h : sep ∉ xs) :
    splitAllChar sep (xs ++ sep :: ys) = xs :: splitAllChar sep ys := by
  induction xs with
  | nil => simp [splitAllChar]
  | cons c rest ih =>
    rw [List.cons_append, splitAllChar, if_neg (by simp at h; exact Ne.symm h.1),
      ih (by simp at h; exact h.2)]

lemma not_mem_joinAmp {x : Char} {chunks : List Str}
    (h : ∀ c ∈ chunks, x ∉ c) (hx : x ≠ '&') : x ∉ joinAmp chunks := by
  induction chunks with
  | nil => simp [joinAmp]
  | cons c t ih =>
    cases t with
    | nil => exact h c (List.mem_cons_self c [])
    | cons c2 t2 =>
      rw [joinAmp]
      intro hmem
      rcases List.mem_append.mp hmem with hc | hrest
      · exact h c (List.mem_cons_self _ _) hc
      · rcases List.mem_cons.mp hrest with rfl | hj
        · exact hx rfl
        · exact ih (fun d hd => h d (List.mem_cons_of_mem _ hd)) hj

lemma splitAllChar_joinAmp {chunks : List Str} (hne : chunks ≠ [])
    (h : ∀ c ∈ chunks, '&' ∉ c) :
    splitAllChar '&' (joinAmp chunks) = chunks := by
  induction chunks with
  | nil => exact absurd rfl hne
  | cons c t ih =>
    cases t with
    | nil => rw [joinAmp]; exact splitAllChar_no_sep (h c (List.mem_cons_self c []))
    | cons c2 t2 =>
      rw [joinAmp, splitAllChar_append (h c (List.mem_cons_self _ _)),
        ih (by simp) (fun d hd => h d (List.mem_cons_of_mem _ hd))]

lemma parse_arg_argChunk {kv : Str × Str} (h : '=' ∉ kv.1) :
    parse_arg (argChunk kv) = kv := by
  rw [argChunk, parse_arg, splitFirstChar_append h]

lemma map_parse_arg_argChunk {args : List (Str × Str)}
    (h : ∀ kv ∈ args, '=' ∉ kv.1) :
    (args.map argChunk).map parse_arg = args := by
  induction args with
  | nil => rfl
  | cons kv rest ih =>
    simp only [List.map_cons]
    rw [parse_arg_argChunk (h kv (List.mem_cons_self _ _)),
      ih (fun d hd => h d (List.mem_cons_of_mem _ hd))]

/-- C5 counterexample: the round-trip contract fails when the action *name*
contains the reserved character `#`, even though every key and value is
reserved-character-free as the claim requires: the decoder splits at the
first `#`, so `"a#b"` with argument `k=v` decodes to name `"a"`. -/
theorem c5_roundtrip_fails_on_hash_in_name :
    (∀ kv ∈ [(("k".toList : Str), ("v".toList : Str))],
      reservedFree kv.1 ∧ reservedFree kv.2) ∧
    parse_callback_query (encode_action "a#b".toList [("k".toList, "v".toList)]) ≠
      ("a#b".toList, [("k".toList, "v".toList)]) := by
  decide

/-- C5 (amended): `decode(encode(a)) = a` whenever no key or value contains
a reserved character `#`, `&`, `=` **and the action name contains no `#`**
(every action name the program emits is `#`-free). -/
theorem c5_codec_roundtrip (name : Str) (args : List (Str × Str))
    (hname : '#' ∉ name)
    (hargs : ∀ kv ∈ args, reservedFree kv.1 ∧ reservedFree kv.2) :
    parse_callback_query (encode_action name args) = (name, args) := by
  cases args with
  | nil => simp [encode_action, parse_callback_query, splitFirstChar_none hname]
  | cons kv rest =>
    have hchunks : ∀ c ∈ ((kv :: rest).map argChunk), '&' ∉ c := by
      intro c hc
      obtain ⟨d, hd, rfl⟩ := List.mem_map.mp hc
      obtain ⟨⟨_, hk, _⟩, ⟨_, hv, _⟩⟩ := hargs d hd
      rw [argChunk]
      intro hmem
      rcases List.mem_append.mp hmem with h1 | h2
      · exact hk h1
      · rcases List.mem_cons.mp h2 with heq | h3
        · exact absurd heq (by decide)
        · exact hv h3
    have hjoin : '#' ∉ joinAmp ((kv :: rest).map argChunk) := by
      refine not_mem_joinAmp ?_ (by decide)
      intro c hc
      obtain ⟨d, hd, rfl⟩ := List.mem_map.mp hc
      obtain ⟨⟨hk, _, _⟩, ⟨hv, _, _⟩⟩ := hargs d hd
      rw [argChunk]
      intro hmem
      rcases List.mem_append.mp hmem with h1 | h2
      · exact hk h1
      · rcases List.mem_cons.mp h2 with heq | h3
        · exact absurd heq (by decide)
        · exact hv h3
    rw [encode_action, parse_callback_query, splitFirstChar_append hname]
    dsimp only
    rw [splitAllChar_joinAmp (by simp) hchunks,
      map_parse_arg_argChunk (fun d hd => ((hargs d hd).1).2.2)]

/-- Witness for C5 (amended) on the action `open.schedule.day#date=…`. -/
theorem c5_codec_roundtrip_witness :
    ('#' ∉ "open.schedule.day".toList) ∧
    (∀ kv ∈ [(("date".toList : Str), ("2023-08-21".toList : Str))],
      reservedFree kv.1 ∧ reservedFree kv.2) ∧
    parse_callback_query (encode_action "open.schedule.day".toList
        [("date".toList, "2023-08-21".toList)]) =
      ("open.schedule.day".toList, [("date".toList, "2023-08-21".toList)]) :=
  ⟨by decide, by decide, c5_codec_roundtrip _ _ (by decide) (by decide)⟩

/-- One stored message entry `[id, timestamp, page_name, lang_code, data]`
as built by `ChatDataManager.add_message` (src/bot/data.py). -/
structure MessageRaw where
  id : Int
  timestamp : Int
  pageName : Str
  langCode : Str
  data : Option Str
deriving DecidableEq

/-- The linear scan of `add_message`: replace the first entry carrying the
same id in place, else append at the end. -/
def replaceOrAppend : List MessageRaw → MessageRaw → List MessageRaw
  | [], m => [m]
  | x :: xs, m => if x.id = m.id then m :: xs else x :: replaceOrAppend xs m

/-- Constant `ChatDataManager.MESSAGES_LIMIT` (src/bot/data.py). -/
def MESSAGES_LIMIT : Nat := 16

/-- Embedding of `ChatDataManager.add_message` (src/bot/data.py): update in
place by id or append, then pop index 0 once when the length exceeds the
limit. -/
def add_message (msgs : List MessageRaw) (m : MessageRaw) : List MessageRaw :=
  let l := replaceOrAppend msgs m
  if MESSAGES_LIMIT < l.length then l.tail else l

lemma replaceOrAppend_length_le (msgs : List MessageRaw) (m : MessageRaw) :
    (replaceOrAppend msgs m).length ≤ msgs.length + 1 := by
  induction msgs with
  | nil => simp [replaceOrAppend]
  | cons x xs ih =>
    rw [replaceOrAppend]
    split
    · simp
    · simpa using Nat.succ_le_succ ih

lemma replaceOrAppend_of_not_mem {msgs : List MessageRaw} {m : MessageRaw}
    (h : ∀ x ∈ msgs, x.id ≠ m.id) : replaceOrAppend msgs m = msgs ++ [m] := by
  induction msgs with
  | nil => rfl
  | cons x xs ih =>
    rw [replaceOrAppend, if_neg (h x (List.mem_cons_self _ _)),
      ih (fun y hy => h y (List.mem_cons_of_mem _ hy))]
    rfl

lemma replaceOrAppend_first_match :
    ∀ {msgs : List MessageRaw} {m : MessageRaw} {i : Nat} (hi : i < msgs.length),
    (msgs.get ⟨i, hi⟩).id = m.id →
    (∀ j (hj : j < i), (msgs.get ⟨j, Nat.lt_trans hj hi⟩).id ≠ m.id) →
    replaceOrAppend msgs m = msgs.set i m := by
  intro msgs
  induction msgs with
  | nil => intro m i hi; simp at hi
  | cons x xs ih =>
    intro m i hi hmatch hfirst
    cases i with
    | zero =>
      have hm : x.id = m.id := hmatch
      rw [replaceOrAppend, if_pos hm]
      rfl
    | succ n =>
      have hx : x.id ≠ m.id := hfirst 0 (Nat.succ_pos n)
      rw [replaceOrAppend, if_neg hx,
        ih (Nat.lt_of_succ_lt_succ hi) hmatch
          (fun j hj => hfirst (j + 1) (Nat.succ_lt_succ hj))]
      rfl

lemma replaceOrAppend_length_of_match :
    ∀ {msgs : List MessageRaw} {m : MessageRaw} {i : Nat} (hi : i < msgs.length),
    (msgs.get ⟨i, hi⟩).id = m.id →
    (∀ j (hj : j < i), (msgs.get ⟨j, Nat.lt_trans hj hi⟩).id ≠ m.id) →
    (replaceOrAppend msgs m).length = msgs.length := by
  intro msgs m i hi hmatch hfirst
  rw [replaceOrAppend_first_match hi hmatch hfirst, List.length_set]

/-- What claim C6 asserts of `add_message`: the 16-entry cap is preserved,
a fresh id is appended, an overflow pops index 0, and updating an existing
id rewrites that position in place without growing the log. -/
def add_message_spec (msgs : List MessageRaw) (m : MessageRaw) : Prop :=
  (add_message msgs m).length ≤ 16 ∧
  ((∀ x ∈ msgs, x.id ≠ m.id) → replaceOrAppend msgs m = msgs ++ [m]) ∧
  (16 < (replaceOrAppend msgs m).length →
    add_message msgs m = (replaceOrAppend msgs m).tail) ∧
  (∀ i (hi : i < msgs.length),
    (msgs.get ⟨i, hi⟩).id = m.id →
    (∀ j (hj : j < i), (msgs.get ⟨j, Nat.lt_trans hj hi⟩).id ≠ m.id) →
    add_message msgs m = msgs.set i m ∧
    (add_message msgs m).length = msgs.length)

/-- C6: the per-chat message history never exceeds 16 entries after an add;
`add_message` replaces in place by id or appends, drops index 0 when the
length exceeds 16, and updating an existing id keeps its position and does
not grow the log. -/
theorem c6_message_log_bounded (msgs : List MessageRaw) (m : MessageRaw)
    (hcap : msgs.length ≤ 16) : add_message_spec msgs m := by
  have hle := replaceOrAppend_length_le msgs m
  refine ⟨?_, replaceOrAppend_of_not_mem, ?_, ?_⟩
  · simp only [add_message, MESSAGES_LIMIT]
    split
    · rename_i h
      rw [List.length_tail]
      omega
    · rename_i h
      omega
  · intro h
    simp only [add_message]
    rw [if_pos (by simpa [MESSAGES_LIMIT] using h)]
  · intro i hi hmatch hfirst
    have hlen := replaceOrAppend_length_of_match hi hmatch hfirst
    have hnotpop : ¬ MESSAGES_LIMIT < (replaceOrAppend msgs m).length := by
      simp only [MESSAGES_LIMIT]
      omega
    constructor
    · simp only [add_message]
      rw [if_neg hnotpop, replaceOrAppend_first_match hi hmatch hfirst]
    · simp only [add_message]
      rw [if_neg hnotpop, hlen]

/-- A minimal stored message entry with the given id. -/
def mkMsg (i : Int) : MessageRaw :=
  { id := i, timestamp := 0, pageName := [], langCode := [], data := Option.none }

/-- A full log of 16 entries with ids 0…15. -/
def wMsgs : List MessageRaw := (List.range 16).map (fun n => mkMsg n)

/-- Witness for C6: adding a 17th distinct id to a full 16-entry log. -/
theorem c6_message_log_bounded_witness :
    wMsgs.length ≤ 16 ∧ add_message_spec wMsgs (mkMsg 99) :=
  ⟨by decide, c6_message_log_bounded wMsgs (mkMsg 99) (by decide)⟩

/-- A Python value stored in a chat/user data record. -/
inductive PyVal where
  | pyNone
  | pyBool (b : Bool)
  | pyInt (n : Int)
  | pyStr (s : Str)
  | pyMsgs (l : List MessageRaw)
deriving DecidableEq

/-- Python dict assignment `d[k] = v` on an insertion-ordered record:
overwrite in place when the key exists, else append. -/
def dictSet : List (Str × PyVal) → Str → PyVal → List (Str × PyVal)
  | [], k, v => [(k, v)]
  | (k', v') :: rest, k, v =>
    if k' = k then (k, v) :: rest else (k', v') :: dictSet rest k v

/-- Python dict lookup `d.get(k)`. -/
def dictGet : List (Str × PyVal) → Str → Option PyVal
  | [], _ => Option.none
  | (k', v') :: rest, k => if k' = k then some v' else dictGet rest k

/-- Embedding of `FileDataManager._save` (src/bot/data.py): what gets written to the
backing file is `self._cache.get(self._filepath) or self.get_default()` —
Python `or` falls back to the default when the cached record is missing or
an empty (falsy) dict. -/
def file_save (cached : Option (List (Str × PyVal)))
    (default : List (Str × PyVal)) : List (Str × PyVal) :=
  match cached with
  | some r => if r.isEmpty then default else r
  | Option.none => default

/-- Embedding of `ChatDataManager.set` / `UserDataManager.set`
(src/bot/data.py): `super().set('_updated', now)`, then
`super().set(field, value)` on the cached record, then `self._save()`.
Returns the new in-memory record and the record persisted to the file. -/
def manager_set (rec : List (Str × PyVal)) (field : Str) (value : PyVal)
    (now : Int) (default : List (Str × PyVal)) :
    List (Str × PyVal) × List (Str × PyVal) :=
  let r1 := dictSet rec "_updated".toList (PyVal.pyInt now)
  let r2 := dictSet r1 field value
  (r2, file_save (some r2) default)

lemma dictGet_dictSet_self (r : List (Str × PyVal)) (k : Str) (v : PyVal) :
    dictGet (dictSet r k v) k = some v := by
  induction r with
  | nil =>
    show (if k = k then some v else dictGet [] k) = some v
    rw [if_pos rfl]
  | cons kv rest ih =>
    obtain ⟨k', v'⟩ := kv
    rw [dictSet]
    by_cases h : k' = k
    · rw [if_pos h]
      show (if k = k then some v else dictGet rest k) = some v
      rw [if_pos rfl]
    · rw [if_neg h]
      show (if k' = k then some v' else dictGet (dictSet rest k v) k) = some v
      rw [if_neg h, ih]

lemma dictGet_dictSet_other (r : List (Str × PyVal)) (k k' : Str) (v : PyVal)
    (h : k' ≠ k) : dictGet (dictSet r k v) k' = dictGet r k' := by
  induction r with
  | nil =>
    show (if k = k' then some v else dictGet [] k') = dictGet [] k'
    rw [if_neg (fun he => h he.symm)]
  | cons kv rest ih =>
    obtain ⟨k0, v0⟩ := kv
    rw [dictSet]
    by_cases h0 : k0 = k
    · rw [if_pos h0]
      show (if k = k' then some v else dictGet rest k') =
        if k0 = k' then some v0 else dictGet rest k'
      rw [if_neg (fun he => h he.symm), h0, if_neg (fun he => h he.symm)]
    · rw [if_neg h0]
      show (if k0 = k' then some v0 else dictGet (dictSet rest k v) k') =
        if k0 = k' then some v0 else dictGet rest k'
      by_cases h1 : k0 = k'
      · rw [if_pos h1, if_pos h1]
      · rw [if_neg h1, if_neg h1, ih]

lemma dictSet_ne_nil (r : List (Str × PyVal)) (k : Str) (v : PyVal) :
    dictSet r k v ≠ [] := by
  cases r with
  | nil => simp [dictSet]
  | cons kv rest =>
    obtain ⟨k0, v0⟩ := kv
    rw [dictSet]
    split <;> simp

/-- C8 (amended): for every key other than the reserved `_updated`
timestamp key, `set` writes the field, stamps `_updated` with the current
time, leaves every other field unchanged, and the record persisted by the
synchronous `_save` is exactly the updated in-memory record. -/
theorem c8_set_frame (rec : List (Str × PyVal)) (field : Str) (value : PyVal)
    (now : Int) (default : List (Str × PyVal))
    (hfield : field ≠ "_updated".toList) :
    dictGet (manager_set rec field value now default).1 field = some value ∧
    dictGet (manager_set rec field value now default).1 "_updated".toList =
      some (PyVal.pyInt now) ∧
    (∀ k, k ≠ field → k ≠ "_updated".toList →
      dictGet (manager_set rec field value now default).1 k = dictGet rec k) ∧
    (manager_set rec field value now default).2 =
      (manager_set rec field value now default).1 := by
  have h1 : (manager_set rec field value now default).1 =
      dictSet (dictSet rec "_updated".toList (PyVal.pyInt now)) field value := rfl
  have h2eq : (manager_set rec field value now default).2 =
      file_save (some (dictSet (dictSet rec "_updated".toList
        (PyVal.pyInt now)) field value)) default := rfl
  rw [h1, h2eq]
  refine ⟨dictGet_dictSet_self .., ?_, ?_, ?_⟩
  · rw [dictGet_dictSet_other _ _ _ _ (fun h => hfield h.symm),
      dictGet_dictSet_self]
  · intro k hk hku
    rw [dictGet_dictSet_other _ _ _ _ hk, dictGet_dictSet_other _ _ _ _ hku]
  · rw [file_save, if_neg]
    simp [List.isEmpty_iff, dictSet_ne_nil]

/-- Witness for C8 (amended): setting `group_id` on a one-field record. -/
theorem c8_set_frame_witness :
    ("group_id".toList ≠ "_updated".toList) ∧
    (dictGet (manager_set [("_created".toList, PyVal.pyInt 5)]
        "group_id".toList (PyVal.pyInt 7) 100 []).1 "group_id".toList =
      some (PyVal.pyInt 7) ∧
    dictGet (manager_set [("_created".toList, PyVal.pyInt 5)]
        "group_id".toList (PyVal.pyInt 7) 100 []).1 "_updated".toList =
      some (PyVal.pyInt 100) ∧
    (∀ k, k ≠ "group_id".toList → k ≠ "_updated".toList →
      dictGet (manager_set [("_created".toList, PyVal.pyInt 5)]
          "group_id".toList (PyVal.pyInt 7) 100 []).1 k =
        dictGet [("_created".toList, PyVal.pyInt 5)] k) ∧
    (manager_set [("_created".toList, PyVal.pyInt 5)]
        "group_id".toList (PyVal.pyInt 7) 100 []).2 =
      (manager_set [("_created".toList, PyVal.pyInt 5)]
        "group_id".toList (PyVal.pyInt 7) 100 []).1) :=
  ⟨by decide,
    c8_set_frame [("_created".toList, PyVal.pyInt 5)] "group_id".toList
      (PyVal.pyInt 7) 100 [] (by decide)⟩

/-- C8 counterexample: the claim quantifies over every key, but for the key
`_updated` itself the user value overwrites the fresh timestamp (the method
stamps `_updated` first and writes the field second), so the `_updated`
timestamp is **not** refreshed: at time 100 it still reads the stale 0. -/
theorem c8_set_updated_key_not_refreshed :
    dictGet (manager_set [("_updated".toList, PyVal.pyInt 0)]
        "_updated".toList (PyVal.pyInt 0) 100 []).1 "_updated".toList =
      some (PyVal.pyInt 0) ∧
    dictGet (manager_set [("_updated".toList, PyVal.pyInt 0)]
        "_updated".toList (PyVal.pyInt 0) 100 []).1 "_updated".toList ≠
      some (PyVal.pyInt 100) := by
  decide

/-- The attribute names defined on `ChatDataManager` and its base classes
`FileDataManager` and `BaseDataManager` (src/bot/data.py), plus the
instance attributes assigned in their constructors. -/
def chat_data_manager_attrs : List Str :=
  [ "_cache".toList, "_id".toList, "get_default".toList, "_load".toList,
    "_save".toList, "_get_data".toList, "get".toList, "set".toList,
    "_filepath".toList, "MESSAGES_LIMIT".toList, "chat_id".toList,
    "lang".toList, "get_all".toList, "exists".toList,
    "get_messages".toList, "add_message".toList, "save_message".toList,
    "remove_message".toList ]

/-- The linear scan-and-pop of `remove_message`: drop the first entry whose
id matches, keep the list unchanged when none does. -/
def removeFirstMsg : List MessageRaw → Int → List MessageRaw
  | [], _ => []
  | x :: xs, msgId => if x.id = msgId then xs else x :: removeFirstMsg xs msgId

/-- Embedding of `ChatDataManager.remove_message` (src/bot/data.py): after
popping the matching entry from the in-memory list, the method evaluates
`self._save(self._get_file())`; `_get_file` is not an attribute of the
class or any base, so the lookup raises `AttributeError` and nothing is
persisted. -/
def remove_message (msgs : List MessageRaw) (msgId : Int) :
    Except Str (List MessageRaw) :=
  let l := removeFirstMsg msgs msgId
  if "_get_file".toList ∈ chat_data_manager_attrs then Except.ok l
  else Except.error "AttributeError".toList

/-- C9: `remove_message` never completes without error — every call raises
`AttributeError` on the missing `_get_file` attribute, after mutating the
cached list but before persisting anything. -/
theorem c9_remove_message_raises (msgs : List MessageRaw) (msgId : Int) :
    remove_message msgs msgId = Except.error "AttributeError".toList := by
  unfold remove_message
  rw [if_neg (by decide)]

/-- The characters `telegram.helpers.escape_markdown(…, version=2)`
escapes. -/
def mdSpecialChars : List Char :=
  ['_', '*', '[', ']', '(', ')', '~', Char.ofNat 0x60, '>', '#', '+', '-',
    '=', '|', Char.ofNat 0x7b, Char.ofNat 0x7d, '.', '!']

/-- Model of `escape_markdown(…, version=2)`: put a backslash before every
MarkdownV2 special character. -/
def escape_markdown_v2 : Str → Str
  | [] => []
  | c :: rest =>
    if c ∈ mdSpecialChars then '\\' :: c :: escape_markdown_v2 rest
    else c :: escape_markdown_v2 rest

/-- Telegram's MarkdownV2 rendering of escapes: a backslash displays the
character that follows it. -/
def md_display : Str → Str
  | [] => []
  | c :: rest =>
    if c = '\\' then
      match rest with
      | [] => []
      | c2 :: rest2 => c2 :: md_display rest2
    else c :: md_display rest

lemma md_display_cons_bs (c2 : Char) (rest2 : Str) :
    md_display ('\\' :: c2 :: rest2) = c2 :: md_display rest2 := rfl

lemma md_display_cons_ne {c : Char} (rest : Str) (h : c ≠ '\\') :
    md_display (c :: rest) = c :: md_display rest := by
  rw [md_display.eq_def]
  dsimp only
  rw [if_neg h]

/-- Model of Python's `s.count(c)` for a single character. -/
def countChar (c : Char) : Str → Nat
  | [] => 0
  | x :: rest => (if x = c then 1 else 0) + countChar c rest

lemma countChar_append (c : Char) (a b : Str) :
    countChar c (a ++ b) = countChar c a + countChar c b := by
  induction a with
  | nil => simp [countChar]
  | cons x rest ih =>
    rw [List.cons_append, countChar, countChar, ih]
    omega

lemma countChar_eq_zero {c : Char} {s : Str} (h : c ∉ s) :
    countChar c s = 0 := by
  induction s with
  | nil => rfl
  | cons x rest ih =>
    rw [countChar, if_neg (by simp at h; exact fun he => h.1 he.symm),
      ih (by simp at h; exact h.2)]

lemma countChar_comma_cons (X : Str) :
    countChar ',' (',' :: ' ' :: X) = 1 + countChar ',' X := by
  show (if ',' = ',' then 1 else 0) + ((if ' ' = ',' then 1 else 0)
    + countChar ',' X) = 1 + countChar ',' X
  rw [if_pos rfl, if_neg (by decide)]
  omega

/-- Python `s.split(sep)[0]` for a multi-character separator: the prefix of
`s` before the first occurrence of `sep` (all of `s` when absent). -/
def takeBeforeSep (sep : Str) : Str → Str
  | [] => []
  | c :: rest =>
    if sep.isPrefixOf (c :: rest) then [] else c :: takeBeforeSep sep rest

/-- One decimal digit as a character. -/
def digitChar : Nat → Char
  | 0 => '0' | 1 => '1' | 2 => '2' | 3 => '3' | 4 => '4'
  | 5 => '5' | 6 => '6' | 7 => '7' | 8 => '8' | 9 => '9' | _ => '?'

/-- Fuelled loop producing the decimal digits of a natural number. -/
def natToDigitsGo (fuel : Nat) (n : Nat) (acc : Str) : Str :=
  match fuel with
  | 0 => acc
  | fuel + 1 =>
    if n < 10 then digitChar n :: acc
    else natToDigitsGo fuel (n / 10) (digitChar (n % 10) :: acc)

/-- Python `str(n)` for a natural number. -/
def natToDigits (n : Nat) : Str := natToDigitsGo (n + 1) n []

/-- Embedding of the teacher-name rendering of `_create_schedule_section`
(src/bot/pages.py): take the part before the first `", "` when the full
name holds several comma-separated names, escape it, wrap it in a link when
the (escaped) name is found in the teacher directory, and append
`" \\+<comma count of the full name>"` in the multiple-teachers case. -/
def render_teacher_name (findTeacher : Str → Option Str) (full : Str) : Str :=
  let multiple := containsSub [',', ' '] full
  let name := if multiple then takeBeforeSep [',', ' '] full else full
  let name2 := escape_markdown_v2 name
  let name3 :=
    match findTeacher name2 with
    | some link => '[' :: name2 ++ ']' :: '(' :: link ++ [')']
    | Option.none => name2
  if multiple then
    name3 ++ ' ' :: '\\' :: '+' :: natToDigits (countChar ',' full)
  else name3

/-- The `", "`-join of a list of names (how a multi-teacher
`teachersNameFull` field is built). -/
def joinCommaSpace : List Str → Str
  | [] => []
  | [x] => x
  | x :: y :: t => x ++ ',' :: ' ' :: joinCommaSpace (y :: t)

lemma digitChar_ne_backslash (n : Nat) : digitChar n ≠ '\\' := by
  unfold digitChar
  split <;> decide

lemma natToDigitsGo_no_backslash (fuel : Nat) :
    ∀ (n : Nat) (acc : Str), '\\' ∉ acc → '\\' ∉ natToDigitsGo fuel n acc := by
  induction fuel with
  | zero => intro n acc hacc; exact hacc
  | succ fuel ih =>
    intro n acc hacc
    rw [natToDigitsGo]
    split
    · intro hmem
      rcases List.mem_cons.mp hmem with heq | h2
      · exact digitChar_ne_backslash n heq.symm
      · exact hacc h2
    · refine ih (n / 10) _ ?_
      intro hmem
      rcases List.mem_cons.mp hmem with heq | h2
      · exact digitChar_ne_backslash (n % 10) heq.symm
      · exact hacc h2

lemma natToDigits_no_backslash (n : Nat) : '\\' ∉ natToDigits n :=
  natToDigitsGo_no_backslash (n + 1) n [] (by simp)

lemma md_display_no_backslash {t : Str} (h : '\\' ∉ t) : md_display t = t := by
  induction t with
  | nil => rfl
  | cons c rest ih =>
    rw [md_display_cons_ne rest (by simp at h; exact fun he => h.1 he.symm)]
    rw [ih (by simp at h; exact h.2)]

lemma md_display_escape_append {s : Str} (t : Str) (h : '\\' ∉ s) :
    md_display (escape_markdown_v2 s ++ t) = s ++ md_display t := by
  induction s with
  | nil => rfl
  | cons c rest ih =>
    rw [escape_markdown_v2]
    by_cases hc : c ∈ mdSpecialChars
    · rw [if_pos hc]
      show md_display ('\\' :: c :: (escape_markdown_v2 rest ++ t)) = _
      rw [md_display_cons_bs, ih (by simp at h; exact h.2)]
      rfl
    · rw [if_neg hc]
      show md_display (c :: (escape_markdown_v2 rest ++ t)) = _
      rw [md_display_cons_ne _ (by simp at h; exact fun he => h.1 he.symm)]
      rw [ih (by simp at h; exact h.2)]
      rfl

lemma isPrefixOf_commaSpace (restStr : Str) :
    List.isPrefixOf [',', ' '] (',' :: ' ' :: restStr) = true := by
  simp [List.isPrefixOf]

lemma takeBeforeSep_commaSpace {n1 : Str} (restStr : Str) (h : ',' ∉ n1) :
    takeBeforeSep [',', ' '] (n1 ++ ',' :: ' ' :: restStr) = n1 := by
  induction n1 with
  | nil =>
    rw [List.nil_append, takeBeforeSep, if_pos (isPrefixOf_commaSpace restStr)]
  | cons c rest ih =>
    have hc : ¬(',' = c) := by simp at h; exact h.1
    rw [List.cons_append, takeBeforeSep, if_neg (by
      simp only [List.isPrefixOf, Bool.and_eq_true, beq_iff_eq]
      intro hcontra
      exact hc hcontra.1)]
    rw [ih (by simp at h; exact h.2)]

lemma containsSub_commaSpace (n1 restStr : Str) :
    containsSub [',', ' '] (n1 ++ ',' :: ' ' :: restStr) = true := by
  induction n1 with
  | nil =>
    rw [List.nil_append, containsSub, isPrefixOf_commaSpace restStr,
      Bool.true_or]
  | cons c rest ih =>
    rw [List.cons_append, containsSub, ih, Bool.or_true]

lemma count_comma_join {names : List Str} (h : ∀ nm ∈ names, ',' ∉ nm)
    (hne : names ≠ []) :
    countChar ',' (joinCommaSpace names) = names.length - 1 := by
  induction names with
  | nil => exact absurd rfl hne
  | cons n1 t ih =>
    cases t with
    | nil =>
      rw [joinCommaSpace]
      simpa using countChar_eq_zero (h n1 (List.mem_cons_self _ _))
    | cons n2 t2 =>
      rw [joinCommaSpace, countChar_append, countChar_comma_cons,
        countChar_eq_zero (h n1 (List.mem_cons_self _ _)),
        ih (fun nm hnm => h nm (List.mem_cons_of_mem _ hnm)) (by simp)]
      simp only [List.length_cons]
      omega

/-- C7: when a period's full teacher name is the `", "`-join of several
comma-free names, the rendered (displayed) teacher text is exactly the
first name followed by `" +N"` with `N` the count of remaining names
(assuming the name is not in the teacher directory, in which case it would
additionally be wrapped in a link). -/
theorem c7_multiple_teachers_first_plus_n
    (findTeacher : Str → Option Str) (names : List Str) (n1 : Str)
    (rest : List Str) (hnames : names = n1 :: rest) (hrest : rest ≠ [])
    (hcomma : ∀ nm ∈ names, ',' ∉ nm) (hbs : '\\' ∉ n1)
    (hfind : findTeacher (escape_markdown_v2 n1) = Option.none) :
    md_display (render_teacher_name findTeacher (joinCommaSpace names)) =
      n1 ++ ' ' :: '+' :: natToDigits (names.length - 1) := by
  subst hnames
  obtain ⟨n2, t2, rfl⟩ : ∃ n2 t2, rest = n2 :: t2 := by
    cases rest with
    | nil => exact absurd rfl hrest
    | cons a b => exact ⟨a, b, rfl⟩
  have hjoin : joinCommaSpace (n1 :: n2 :: t2) =
      n1 ++ ',' :: ' ' :: joinCommaSpace (n2 :: t2) := by
    rw [joinCommaSpace]
  have hmul : containsSub [',', ' '] (joinCommaSpace (n1 :: n2 :: t2)) = true := by
    rw [hjoin]; exact containsSub_commaSpace _ _
  have htake : takeBeforeSep [',', ' '] (joinCommaSpace (n1 :: n2 :: t2)) = n1 := by
    rw [hjoin]
    exact takeBeforeSep_commaSpace _ (hcomma n1 (List.mem_cons_self _ _))
  have hcount : countChar ',' (joinCommaSpace (n1 :: n2 :: t2)) =
      (n1 :: n2 :: t2).length - 1 :=
    count_comma_join hcomma (by simp)
  rw [render_teacher_name]
  simp only [hmul, if_pos, htake, hfind, hcount]
  rw [md_display_escape_append _ hbs]
  rw [md_display_cons_ne _ (by decide), md_display_cons_bs]
  rw [md_display_no_backslash (natToDigits_no_backslash _)]

/-- Witness for C7: the scenario `"Smith, Jones"` with an empty teacher
directory renders as text ending in `"Smith +1"`. -/
theorem c7_multiple_teachers_witness :
    (["Smith".toList, "Jones".toList] = "Smith".toList :: ["Jones".toList]) ∧
    (["Jones".toList] ≠ ([] : List Str)) ∧
    (∀ nm ∈ ["Smith".toList, "Jones".toList], ',' ∉ nm) ∧
    ('\\' ∉ "Smith".toList) ∧
    ((fun _ : Str => (Option.none : Option Str)) (escape_markdown_v2 "Smith".toList)
      = Option.none) ∧
    md_display (render_teacher_name (fun _ => Option.none)
        (joinCommaSpace ["Smith".toList, "Jones".toList])) =
      "Smith".toList ++ ' ' :: '+' ::
        natToDigits (["Smith".toList, "Jones".toList].length - 1) ∧
    joinCommaSpace ["Smith".toList, "Jones".toList] = "Smith, Jones".toList ∧
    "Smith".toList ++ ' ' :: '+' ::
        natToDigits (["Smith".toList, "Jones".toList].length - 1) =
      "Smith +1".toList :=
  ⟨rfl, by decide, by decide, by decide, rfl,
    c7_multiple_teachers_first_plus_n (fun _ => Option.none)
      ["Smith".toList, "Jones".toList] "Smith".toList ["Jones".toList]
      rfl (by decide) (by decide) (by decide) rfl,
    by decide, by decide⟩

/-- Embedding of the over-length guard of `students_list`
(src/bot/pages.py): a page text longer than 4096 characters is replaced by
its first 4093 characters followed by `"..."`. -/
def students_list_truncate (page_text : Str) : Str :=
  if 4096 < page_text.length then page_text.take 4093 ++ ['.', '.', '.']
  else page_text

/-- C10: the students-list page text handed to the transport never exceeds
4096 characters, and any longer composed text is truncated to its first
4093 characters plus `"..."`. -/
theorem c10_students_list_length (s : Str) :
    (students_list_truncate s).length ≤ 4096 ∧
    (4096 < s.length →
      students_list_truncate s = s.take 4093 ++ ['.', '.', '.']) := by
  constructor
  · unfold students_list_truncate
    split
    · rename_i h
      rw [List.length_append, List.length_take]
      simp only [List.length_cons, List.length_nil]
      omega
    · rename_i h
      omega
  · intro h
    unfold students_list_truncate
    rw [if_pos h]

/-- Witness for C10 at a concrete 4097-character text. -/
theorem c10_students_list_length_witness :
    4096 < (List.replicate 4097 'a' : Str).length ∧
    students_list_truncate (List.replicate 4097 'a') =
      (List.replicate 4097 'a').take 4093 ++ ['.', '.', '.'] :=
  ⟨by rw [List.length_replicate]; norm_num,
    (c10_students_list_length (List.replicate 4097 'a')).2
      (by rw [List.length_replicate]; norm_num)⟩

/-- C1: `_is_day_empty` disagrees with the specification's emptiness rule.
On a day holding one hidden period and one visible period the code reports
the day as empty (it returns `True` as soon as **any** period carries the
hidden marker), while the rule stated in the spec — and in the function's
own docstring, "no lessons or **all** lessons are hidden" — classifies the
day as non-empty. -/
theorem c1_is_day_empty_any_not_all :
    is_day_empty mixedDay = true ∧ is_day_empty_spec mixedDay = false := by
  decide
